import Mathlib

/-
Verification of the directory-synchronization core of
`jgordijn/opencode-remote-config` (file `src/copy.ts`).

The TypeScript code is shallowly embedded:

* The filesystem is a finite tree `FsNode` (files, symbolic links,
  directories with association-list children).  Paths are the component
  lists of resolved absolute paths (`path.resolve` output): the empty list
  is the root `/`, and `["tmp", "a"]` is `/tmp/a`.  Symbolic links are
  opaque leaves; the model never resolves them (the code's overlap check
  does not resolve them either, a documented limitation, and `stat` is
  modelled without link following).
* Shell invocations (Bun's `$`) and fault injection for `fs.cpSync` /
  cleanup removal are supplied by an `Env` record: `which rsync` and
  `rsync -a --delete` each yield either a thrown message or an exit code.
* Process-wide mutable state (the rsync-availability cache, the two log
  sinks `logDebug` / `logError`) is threaded explicitly through `St`.
* Thrown `Error`s become the `SyncError` inductive; async functions become
  pure functions returning `Except SyncError _` together with the
  filesystem / state after whatever mutations happened before the throw.
-/

/-- A node of the modelled filesystem tree. -/
inductive FsNode where
  | file (content : String)
  | symlink (dest : String)
  | dir (entries : List (String × FsNode))

/-- Look a name up in a directory's entry list. -/
def lookupEntry : List (String × FsNode) → String → Option FsNode
  | [], _ => none
  | (k, v) :: rest, c => if k = c then some v else lookupEntry rest c

/-- Replace (or append) the entry with the given name. -/
def setEntry : List (String × FsNode) → String → FsNode → List (String × FsNode)
  | [], c, n => [(c, n)]
  | (k, v) :: rest, c, n => if k = c then (c, n) :: rest else (k, v) :: setEntry rest c n

/-- Delete the entry with the given name, if present. -/
def removeEntry : List (String × FsNode) → String → List (String × FsNode)
  | [], _ => []
  | (k, v) :: rest, c => if k = c then rest else (k, v) :: removeEntry rest c

/-- Follow a path down the tree (no symbolic-link resolution). -/
def FsNode.lookup : FsNode → List String → Option FsNode
  | n, [] => some n
  | FsNode.dir es, c :: p =>
    match lookupEntry es c with
    | some child => child.lookup p
    | none => none
  | _, _ :: _ => none

/-- `stat.isDirectory()`. -/
def FsNode.isDir : FsNode → Bool
  | FsNode.dir _ => true
  | _ => false

/-- `stat.isFile()`. -/
def FsNode.isFile : FsNode → Bool
  | FsNode.file _ => true
  | _ => false

/-- `stat.isSymbolicLink()`. -/
def FsNode.isSymbolicLink : FsNode → Bool
  | FsNode.symlink _ => true
  | _ => false

/-- Place a node at a path whose parent chain consists of existing
directories (the subtree previously there, if any, is replaced).  Used to
model `fs.cpSync(source, target, {recursive: true})` writing the copied
tree, after the code has ensured the parent directory exists. -/
def FsNode.writeAt : FsNode → List String → FsNode → Option FsNode
  | _, [], node => some node
  | FsNode.dir es, [c], node => some (FsNode.dir (setEntry es c node))
  | FsNode.dir es, c :: p, node =>
    match lookupEntry es c with
    | some child => (child.writeAt p node).map (fun ch => FsNode.dir (setEntry es c ch))
    | none => none
  | _, _ :: _, _ => none

/-- Delete the subtree at a path (no-op when the path does not lead to an
entry).  Models both `fs.unlinkSync` (files / symlinks, guarded by an
existence check in the code) and `fs.rmSync(..., {recursive: true, force:
true})` (directories): in the tree model both remove the entry. -/
def FsNode.removePath : FsNode → List String → FsNode
  | n, [] => n
  | FsNode.dir es, [c] => FsNode.dir (removeEntry es c)
  | FsNode.dir es, c :: p =>
    match lookupEntry es c with
    | some child => FsNode.dir (setEntry es c (child.removePath p))
    | none => FsNode.dir es
  | n, _ :: _ => n

/-- `fs.mkdirSync(path, {recursive: true})`: create missing directories
along the path; `none` models the thrown error when a path component
exists and is not a directory (in which case nothing new is created). -/
def FsNode.mkdirp : FsNode → List String → Option FsNode
  | FsNode.dir es, [] => some (FsNode.dir es)
  | FsNode.dir es, c :: p =>
    match lookupEntry es c with
    | some child => (child.mkdirp p).map (fun ch => FsNode.dir (setEntry es c ch))
    | none => ((FsNode.dir []).mkdirp p).map (fun ch => FsNode.dir (setEntry es c ch))
  | _, _ => none

/-- Boolean prefix test on component lists: `pathLeB s t` holds when `s`
is an (improper) prefix of `t`. -/
def pathLeB : List String → List String → Bool
  | [], _ => true
  | _ :: _, [] => false
  | a :: s, b :: t => a == b && pathLeB s t

/-- Proper-prefix test on component lists. -/
def properUnder : List String → List String → Bool
  | [], [] => false
  | [], _ :: _ => true
  | _ :: _, [] => false
  | a :: s, b :: t => a == b && properUnder s t

/-- Embedding of `resolvedT.startsWith(resolvedS + path.sep)` on resolved
absolute paths.  For a non-root `s`, appending the separator and testing
the string prefix is exactly the proper-prefix test on components; for the
root `s = /`, the code builds the string `//`, which is never a prefix of
a resolved path, so the check is `false`. -/
def isStrictDescendant (t s : List String) : Bool :=
  match s with
  | [] => false
  | _ :: _ => properUnder s t

/-- The path separator (`path.sep` on POSIX). -/
def pathSep : String := "/"

/-- Render a component list back to the absolute path string (used only
for the log messages the code interpolates paths into). -/
def renderPath (p : List String) : String :=
  pathSep ++ String.intercalate pathSep p

/-- Errors thrown by `copy.ts` (all are `new Error(message)` in the
source; the constructors record the distinct message templates). -/
inductive SyncError where
  | sourceNotFound
  | sourceNotDirectory
  | targetInsideSource
  | sourceInsideTarget
  | rsyncError (msg : String)
  | mkdirError
  | cpError
deriving DecidableEq

/-- The message carried by the thrown `Error` (used by the
`rsync failed, falling back to fs:` log line). -/
def SyncError.message : SyncError → String
  | SyncError.sourceNotFound => "Source does not exist"
  | SyncError.sourceNotDirectory => "Source is not a directory"
  | SyncError.targetInsideSource => "Target cannot be inside source"
  | SyncError.sourceInsideTarget => "Source cannot be inside target"
  | SyncError.rsyncError m => m
  | SyncError.mkdirError => "mkdir failed"
  | SyncError.cpError => "cpSync failed"

/-- The copy strategy recorded in `SyncDirectoryResult.method`
(`"rsync" | "fs"` in the source). -/
inductive Method where
  | rsync
  | fs
deriving DecidableEq

/-- Result of a `syncDirectory` operation. -/
structure SyncDirectoryResult where
  method : Method
deriving DecidableEq

/-- The external world: outcomes of the two shell commands and fault
injection for the Node `fs` calls.  `Except.error m` is a thrown
invocation error with message `m`; `Except.ok` carries the exit code (and
captured stderr for the copy command). -/
structure Env where
  whichRsync : Except String Nat
  rsyncRun : Except String (Nat × String)
  cpFault : Bool
  cpPartial : Option FsNode
  cleanupFault : Bool

/-- Process state threaded through the embedded functions: the filesystem,
the module-level `rsyncAvailable` cache, and the two log sinks (most
recent message first). -/
structure St where
  fs : FsNode
  rsyncAvailable : Option Bool
  debugLog : List String
  errorLog : List String

/-- `detectRsync()`: return the cached availability if set; otherwise run
`which rsync`, cache `exitCode === 0` (or `false` when the probe throws),
and return it. -/
def detectRsync (env : Env) (st : St) : Bool × St :=
  match st.rsyncAvailable with
  | some b => (b, st)
  | none =>
    match env.whichRsync with
    | Except.ok exitCode =>
      (exitCode == 0, { st with rsyncAvailable := some (exitCode == 0) })
    | Except.error _ => (false, { st with rsyncAvailable := some false })

/-- `resetRsyncCache()`. -/
def resetRsyncCache (st : St) : St :=
  { st with rsyncAvailable := none }

/-- `setRsyncAvailable(value)`. -/
def setRsyncAvailable (v : Option Bool) (st : St) : St :=
  { st with rsyncAvailable := v }

/-- Modelled from the spec: the filesystem effect of the external command
`rsync -a --delete source/ target/`.  rsync is an external tool, not code
of this repository; per the spec it "mirrors `source`'s *contents* into
`target`, creating `target` if absent, and removing any entries under
`target` not present in `source` — exact mirror semantics".  In the tree
model that is: replace the subtree at `target` by the subtree at `source`.
A `target` that exists as a file or symbolic link makes the command fail
(`none`), as does a missing `source`. -/
def rsyncMirror (fs : FsNode) (source target : List String) : Option FsNode :=
  match fs.lookup target with
  | some (FsNode.file _) => none
  | some (FsNode.symlink _) => none
  | _ =>
    match fs.lookup source with
    | some node => fs.writeAt target node
    | none => none

/-- `copyWithRsync(source, target)`: ensure the target's parent exists,
run rsync, throw on a thrown invocation or nonzero exit.  Returns the
outcome together with the filesystem after whatever mutations happened
(a failed run still keeps the created parent directories). -/
def copyWithRsync (env : Env) (fs : FsNode) (source target : List String) :
    Except SyncError Unit × FsNode :=
  match fs.mkdirp target.dropLast with
  | none => (Except.error SyncError.mkdirError, fs)
  | some fs1 =>
    match env.rsyncRun with
    | Except.error msg => (Except.error (SyncError.rsyncError msg), fs1)
    | Except.ok (exitCode, stderrText) =>
      if exitCode != 0 then
        (Except.error (SyncError.rsyncError (String.append ("rsync failed: ") stderrText)), fs1)
      else
        match rsyncMirror fs1 source target with
        | none => (Except.error (SyncError.rsyncError ("rsync failed: target not a directory")), fs1)
        | some fs2 => (Except.ok (), fs2)

/-- `copyWithNodeFs(source, target)`: remove an existing target (unlink
for a file or symlink, recursive removal for a directory), ensure the
parent exists, then copy recursively with `fs.cpSync`.  `env.cpFault`
injects an environmental `cpSync` failure, which may leave the partial
tree `env.cpPartial` at the target. -/
def copyWithNodeFs (env : Env) (fs : FsNode) (source target : List String) :
    Except SyncError Unit × FsNode :=
  let fs1 :=
    match fs.lookup target with
    | some n =>
      if n.isSymbolicLink || n.isFile then
        fs.removePath target
      else
        fs.removePath target
    | none => fs
  match fs1.mkdirp target.dropLast with
  | none => (Except.error SyncError.mkdirError, fs1)
  | some fs2 =>
    if env.cpFault then
      match env.cpPartial with
      | some junk => (Except.error SyncError.cpError, (fs2.writeAt target junk).getD fs2)
      | none => (Except.error SyncError.cpError, fs2)
    else
      match fs2.lookup source with
      | none => (Except.error SyncError.cpError, fs2)
      | some node =>
        match fs2.writeAt target node with
        | none => (Except.error SyncError.cpError, fs2)
        | some fs3 => (Except.ok (), fs3)

/-- The `logDebug` message for a successful rsync copy. -/
def rsyncDebugMsg (source target : List String) : String :=
  "Copied " ++ renderPath source ++ " → " ++ renderPath target ++ " using rsync"

/-- The `logDebug` message for a successful fallback copy. -/
def fsDebugMsg (source target : List String) : String :=
  "Copied " ++ renderPath source ++ " → " ++ renderPath target ++ " using fs.cpSync"

/-- The `logError` message recorded when the rsync attempt fails. -/
def rsyncErrorMsg (e : SyncError) : String :=
  "rsync failed, falling back to fs: " ++ e.message

/-- The cleanup block of `syncDirectory`'s fallback catch: remove the
partially-written target if it exists (unlink for a file or symlink,
recursive removal for a directory). -/
def cleanupTarget (fs : FsNode) (target : List String) : FsNode :=
  match fs.lookup target with
  | some n =>
    if n.isSymbolicLink || n.isFile then
      fs.removePath target
    else
      fs.removePath target
  | none => fs

/-- The fallback block of `syncDirectory`: run `copyWithNodeFs`; on
success log and return `{method: "fs"}`; on failure run the cleanup block
(swallowing its own error, which `env.cleanupFault` injects) and re-throw
the original failure. -/
def applyFallback (env : Env) (st : St) (source target : List String) :
    Except SyncError SyncDirectoryResult × St :=
  match copyWithNodeFs env st.fs source target with
  | (Except.ok _, fs') =>
    (Except.ok { method := Method.fs },
      { st with fs := fs', debugLog := fsDebugMsg source target :: st.debugLog })
  | (Except.error e, fs') =>
    (Except.error e,
      { st with fs := if env.cleanupFault then fs' else cleanupTarget fs' target })

/-- The strategy-selection part of `syncDirectory`, after validation:
detect rsync; if available try it, logging and falling through to the
fallback on failure; otherwise go straight to the fallback. -/
def execStrategies (env : Env) (st : St) (source target : List String) :
    Except SyncError SyncDirectoryResult × St :=
  match detectRsync env st with
  | (true, st1) =>
    match copyWithRsync env st1.fs source target with
    | (Except.ok _, fs') =>
      (Except.ok { method := Method.rsync },
        { st1 with fs := fs', debugLog := rsyncDebugMsg source target :: st1.debugLog })
    | (Except.error e, fs') =>
      applyFallback env { st1 with fs := fs', errorLog := rsyncErrorMsg e :: st1.errorLog }
        source target
  | (false, st1) => applyFallback env st1 source target

/-- `syncDirectory(source, target)`.  The paths are taken already in
resolved absolute form (component lists), matching the `path.resolve`
calls in the source.  Validation: source must exist and be a directory;
then the two overlap checks on the resolved paths; then strategy
execution. -/
def syncDirectory (env : Env) (st : St) (source target : List String) :
    Except SyncError SyncDirectoryResult × St :=
  match st.fs.lookup source with
  | none => (Except.error SyncError.sourceNotFound, st)
  | some sourceStat =>
    if !sourceStat.isDir then
      (Except.error SyncError.sourceNotDirectory, st)
    else if isStrictDescendant target source then
      (Except.error SyncError.targetInsideSource, st)
    else if isStrictDescendant source target then
      (Except.error SyncError.sourceInsideTarget, st)
    else
      execStrategies env st source target

/-- Concrete filesystem for the spec's scenario: `/tmp/a` containing
`f.txt = "x"` and `/tmp/b` containing `g.txt = "y"`. -/
def fsDemo : FsNode :=
  FsNode.dir
    [("tmp", FsNode.dir
      [("a", FsNode.dir [("f.txt", FsNode.file ("x"))]),
       ("b", FsNode.dir [("g.txt", FsNode.file ("y"))])])]

/-- Initial state over `fsDemo` with an unset availability cache. -/
def stDemo : St :=
  { fs := fsDemo, rsyncAvailable := none, debugLog := [], errorLog := [] }

/-- Environment in which the `which rsync` probe throws (tool
unavailable). -/
def envNoRsync : Env :=
  { whichRsync := Except.error ("which: not found"), rsyncRun := Except.error ("no rsync"),
    cpFault := false, cpPartial := none, cleanupFault := false }

/-- Environment in which rsync is available and its copy succeeds. -/
def envRsyncOk : Env :=
  { whichRsync := Except.ok 0, rsyncRun := Except.ok (0, ""),
    cpFault := false, cpPartial := none, cleanupFault := false }

/-- Environment in which rsync is available but its copy exits nonzero. -/
def envRsyncFails : Env :=
  { whichRsync := Except.ok 0, rsyncRun := Except.ok (23, ("io error")),
    cpFault := false, cpPartial := none, cleanupFault := false }

/-- Environment in which rsync is unavailable and `fs.cpSync` fails after
writing a partial file at the target. -/
def envCpFault : Env :=
  { whichRsync := Except.ok 1, rsyncRun := Except.error ("absent"),
    cpFault := true, cpPartial := some (FsNode.file ("partial")), cleanupFault := false }

/-! Association-list entry lemmas. -/

theorem lookupEntry_setEntry_self (es : List (String × FsNode)) (c : String) (v : FsNode) :
    lookupEntry (setEntry es c v) c = some v := by
  induction es with
  | nil => simp [setEntry, lookupEntry]
  | cons kv rest ih =>
    obtain ⟨k, w⟩ := kv
    by_cases h : k = c
    · simp [setEntry, lookupEntry, h]
    · simp [setEntry, lookupEntry, h, ih]

theorem lookupEntry_setEntry_ne (es : List (String × FsNode)) (k c : String) (v : FsNode)
    (h : k ≠ c) : lookupEntry (setEntry es k v) c = lookupEntry es c := by
  induction es with
  | nil => simp [setEntry, lookupEntry, h]
  | cons kv rest ih =>
    obtain ⟨k', w⟩ := kv
    by_cases h' : k' = k
    · subst h'
      simp [setEntry, lookupEntry, h, Ne.symm h]
    · by_cases h'' : k' = c
      · subst h''
        simp [setEntry, lookupEntry, h', Ne.symm h]
      · simp [setEntry, lookupEntry, h', h'', ih]

theorem setEntry_lookup_id (es : List (String × FsNode)) (c : String) (v : FsNode)
    (h : lookupEntry es c = some v) : setEntry es c v = es := by
  induction es with
  | nil => simp [lookupEntry] at h
  | cons kv rest ih =>
    obtain ⟨k, w⟩ := kv
    by_cases h' : k = c
    · subst h'
      simp [lookupEntry] at h
      simp [setEntry, h]
    · simp [lookupEntry, h'] at h
      simp [setEntry, h', ih h]

theorem lookupEntry_removeEntry_ne (es : List (String × FsNode)) (k c : String)
    (h : k ≠ c) : lookupEntry (removeEntry es k) c = lookupEntry es c := by
  induction es with
  | nil => simp [removeEntry]
  | cons kv rest ih =>
    obtain ⟨k', w⟩ := kv
    by_cases h' : k' = k
    · subst h'
      simp [removeEntry, lookupEntry, h, Ne.symm h]
    · by_cases h'' : k' = c
      · subst h''
        simp [removeEntry, lookupEntry, h']
      · simp [removeEntry, lookupEntry, h', h'', ih]

/-! Path prefix lemmas. -/

theorem pathLeB_iff (s t : List String) : pathLeB s t = true ↔ ∃ r, s ++ r = t := by
  induction s generalizing t with
  | nil => simp [pathLeB]
  | cons a s ih =>
    cases t with
    | nil => simp [pathLeB]
    | cons b t =>
      simp [pathLeB, ih, List.cons.injEq]

theorem pathLeB_false (s t : List String) (h : pathLeB s t = false) : ∀ r, s ++ r ≠ t := by
  intro r hr
  have : pathLeB s t = true := (pathLeB_iff s t).mpr ⟨r, hr⟩
  rw [this] at h
  cases h

theorem append_ne_of_pathLeB_false (s t : List String) (h : pathLeB s t = false) :
    ∀ r, s ++ r ≠ t :=
  pathLeB_false s t h

theorem ne_nil_of_strict (s t : List String) (h : ∀ r, t ++ r ≠ s) : t ≠ [] := by
  intro he
  subst he
  exact h s rfl

theorem pathNe_dropLast (q t : List String) (h : ∀ r, q ++ r ≠ t) (ht : t ≠ []) :
    ∀ r, q ++ r ≠ t.dropLast := by
  intro r hr
  apply h (r ++ [t.getLast ht])
  rw [← List.append_assoc, hr]
  exact List.dropLast_append_getLast ht

theorem properUnder_self (p : List String) : properUnder p p = false := by
  induction p with
  | nil => rfl
  | cons a p ih => simp [properUnder, ih]

theorem isStrictDescendant_self (p : List String) : isStrictDescendant p p = false := by
  cases p with
  | nil => rfl
  | cons a p => simp [isStrictDescendant, properUnder_self]

/-! Filesystem-tree lemmas. -/

theorem lookup_nil (n : FsNode) : n.lookup [] = some n := by
  cases n <;> rfl

theorem lookup_dir_cons (es : List (String × FsNode)) (c : String) (p : List String) :
    (FsNode.dir es).lookup (c :: p) =
      (match lookupEntry es c with
       | some child => child.lookup p
       | none => none) := rfl

theorem lookup_writeAt_self (t : List String) :
    ∀ (fs n fs' : FsNode), fs.writeAt t n = some fs' → fs'.lookup t = some n := by
  induction t with
  | nil =>
    intro fs n fs' h
    simp [FsNode.writeAt] at h
    subst h
    exact lookup_nil n
  | cons c p ih =>
    intro fs n fs' h
    cases fs with
    | file s => cases p <;> simp [FsNode.writeAt] at h
    | symlink s => cases p <;> simp [FsNode.writeAt] at h
    | dir es =>
      cases p with
      | nil =>
        simp [FsNode.writeAt] at h
        subst h
        simp [FsNode.lookup, lookupEntry_setEntry_self, lookup_nil]
      | cons d r =>
        simp [FsNode.writeAt] at h
        rcases hc : lookupEntry es c with _ | child
        · rw [hc] at h
          simp at h
        · rw [hc] at h
          simp at h
          obtain ⟨ch, hch, hfs'⟩ := h
          subst hfs'
          simp [FsNode.lookup, lookupEntry_setEntry_self]
          exact ih child n ch hch

theorem lookup_writeAt_other (t : List String) :
    ∀ (fs n fs' : FsNode) (q : List String), fs.writeAt t n = some fs' →
      (∀ r, t ++ r ≠ q) → (∀ r, q ++ r ≠ t) → fs'.lookup q = fs.lookup q := by
  induction t with
  | nil =>
    intro fs n fs' q h h1 h2
    exact absurd rfl (h1 q)
  | cons c p ih =>
    intro fs n fs' q h h1 h2
    cases fs with
    | file s => cases p <;> simp [FsNode.writeAt] at h
    | symlink s => cases p <;> simp [FsNode.writeAt] at h
    | dir es =>
      cases p with
      | nil =>
        simp [FsNode.writeAt] at h
        subst h
        cases q with
        | nil => exact absurd rfl (h2 [c])
        | cons d q' =>
          by_cases hd : d = c
          · subst hd
            exact absurd rfl (h1 q')
          · simp [FsNode.lookup, lookupEntry_setEntry_ne es c d n (fun he => hd he.symm)]
      | cons d0 r0 =>
        simp [FsNode.writeAt] at h
        rcases hc : lookupEntry es c with _ | child
        · rw [hc] at h
          simp at h
        · rw [hc] at h
          simp at h
          obtain ⟨ch, hch, hfs'⟩ := h
          subst hfs'
          cases q with
          | nil => exact absurd rfl (h2 (c :: d0 :: r0))
          | cons e q' =>
            by_cases he : e = c
            · subst he
              have h1' : ∀ r, (d0 :: r0) ++ r ≠ q' := by
                intro r hr
                exact h1 r (by simp [hr])
              have h2' : ∀ r, q' ++ r ≠ d0 :: r0 := by
                intro r hr
                exact h2 r (by simp [hr])
              simp [FsNode.lookup, lookupEntry_setEntry_self, hc]
              exact ih child n ch q' hch h1' h2'
            · simp [FsNode.lookup, lookupEntry_setEntry_ne es c e ch (fun hh => he hh.symm)]

theorem writeAt_isSome (t : List String) :
    ∀ (fs n : FsNode) (es : List (String × FsNode)), t ≠ [] →
      fs.lookup t.dropLast = some (FsNode.dir es) →
      ∃ fs', fs.writeAt t n = some fs' := by
  induction t with
  | nil =>
    intro fs n es h hl
    exact absurd rfl h
  | cons c p ih =>
    intro fs n es h hl
    cases p with
    | nil =>
      simp [List.dropLast, lookup_nil] at hl
      subst hl
      exact ⟨FsNode.dir (setEntry es c n), rfl⟩
    | cons d r =>
      have hdl : (c :: d :: r).dropLast = c :: (d :: r).dropLast := rfl
      rw [hdl] at hl
      cases fs with
      | file s => simp [FsNode.lookup] at hl
      | symlink s => simp [FsNode.lookup] at hl
      | dir es0 =>
        rw [lookup_dir_cons] at hl
        rcases hc : lookupEntry es0 c with _ | child
        · rw [hc] at hl
          simp at hl
        · rw [hc] at hl
          simp at hl
          obtain ⟨ch, hch⟩ := ih child n es (by simp) hl
          exact ⟨FsNode.dir (setEntry es0 c ch), by simp [FsNode.writeAt, hc, hch]⟩

theorem lookup_dropLast_dir (t : List String) :
    ∀ (fs n : FsNode), t ≠ [] → fs.lookup t = some n →
      ∃ es, fs.lookup t.dropLast = some (FsNode.dir es) := by
  induction t with
  | nil =>
    intro fs n h hl
    exact absurd rfl h
  | cons c p ih =>
    intro fs n h hl
    cases fs with
    | file s => simp [FsNode.lookup] at hl
    | symlink s => simp [FsNode.lookup] at hl
    | dir es0 =>
      rw [lookup_dir_cons] at hl
      rcases hc : lookupEntry es0 c with _ | child
      · rw [hc] at hl
        simp at hl
      · rw [hc] at hl
        simp at hl
        cases p with
        | nil => exact ⟨es0, by simp [List.dropLast, lookup_nil]⟩
        | cons d r =>
          obtain ⟨es1, hes1⟩ := ih child n (by simp) hl
          refine ⟨es1, ?_⟩
          have hdl : (c :: d :: r).dropLast = c :: (d :: r).dropLast := rfl
          rw [hdl, lookup_dir_cons, hc]
          exact hes1

theorem lookup_removePath_other (t : List String) :
    ∀ (fs : FsNode) (q : List String),
      (∀ r, t ++ r ≠ q) → (∀ r, q ++ r ≠ t) → (fs.removePath t).lookup q = fs.lookup q := by
  induction t with
  | nil =>
    intro fs q h1 h2
    exact absurd rfl (h1 q)
  | cons c p ih =>
    intro fs q h1 h2
    cases fs with
    | file s => cases p <;> rfl
    | symlink s => cases p <;> rfl
    | dir es =>
      cases p with
      | nil =>
        cases q with
        | nil => exact absurd rfl (h2 [c])
        | cons d q' =>
          by_cases hd : d = c
          · subst hd
            exact absurd rfl (h1 q')
          · show (FsNode.dir (removeEntry es c)).lookup (d :: q') = _
            simp [FsNode.lookup, lookupEntry_removeEntry_ne es c d (fun he => hd he.symm)]
      | cons d0 r0 =>
        show (match lookupEntry es c with
          | some child => FsNode.dir (setEntry es c (child.removePath (d0 :: r0)))
          | none => FsNode.dir es).lookup q = _
        rcases hc : lookupEntry es c with _ | child
        · rfl
        · cases q with
          | nil => exact absurd rfl (h2 (c :: d0 :: r0))
          | cons e q' =>
            by_cases he : e = c
            · subst he
              have h1' : ∀ r, (d0 :: r0) ++ r ≠ q' := by
                intro r hr
                exact h1 r (by simp [hr])
              have h2' : ∀ r, q' ++ r ≠ d0 :: r0 := by
                intro r hr
                exact h2 r (by simp [hr])
              simp [FsNode.lookup, lookupEntry_setEntry_self, hc]
              exact ih child q' h1' h2'
            · simp [FsNode.lookup, hc,
                lookupEntry_setEntry_ne es c e _ (fun hh => he hh.symm)]

theorem removePath_dropLast_dir (t : List String) :
    ∀ (fs : FsNode) (es : List (String × FsNode)), t ≠ [] →
      fs.lookup t.dropLast = some (FsNode.dir es) →
      ∃ es', (fs.removePath t).lookup t.dropLast = some (FsNode.dir es') := by
  induction t with
  | nil =>
    intro fs es h hl
    exact absurd rfl h
  | cons c p ih =>
    intro fs es h hl
    cases p with
    | nil =>
      simp [List.dropLast, lookup_nil] at hl
      subst hl
      exact ⟨removeEntry es c, by simp [FsNode.removePath, lookup_nil]⟩
    | cons d r =>
      have hdl : (c :: d :: r).dropLast = c :: (d :: r).dropLast := rfl
      rw [hdl] at hl
      cases fs with
      | file s => simp [FsNode.lookup] at hl
      | symlink s => simp [FsNode.lookup] at hl
      | dir es0 =>
        rw [lookup_dir_cons] at hl
        rcases hc : lookupEntry es0 c with _ | child
        · rw [hc] at hl
          simp at hl
        · rw [hc] at hl
          simp at hl
          obtain ⟨es', hes'⟩ := ih child es (by simp) hl
          refine ⟨es', ?_⟩
          show (match lookupEntry es0 c with
            | some ch => FsNode.dir (setEntry es0 c (ch.removePath (d :: r)))
            | none => FsNode.dir es0).lookup (c :: d :: r).dropLast = _
          rw [hc, hdl, lookup_dir_cons, lookupEntry_setEntry_self]
          exact hes'

theorem lookup_mkdirp_other (p : List String) :
    ∀ (fs fs' : FsNode) (q : List String), fs.mkdirp p = some fs' →
      (∀ r, q ++ r ≠ p) → fs'.lookup q = fs.lookup q := by
  induction p with
  | nil =>
    intro fs fs' q h hq
    cases fs with
    | file s => simp [FsNode.mkdirp] at h
    | symlink s => simp [FsNode.mkdirp] at h
    | dir es =>
      simp [FsNode.mkdirp] at h
      subst h
      rfl
  | cons c p' ih =>
    intro fs fs' q h hq
    cases fs with
    | file s => simp [FsNode.mkdirp] at h
    | symlink s => simp [FsNode.mkdirp] at h
    | dir es =>
      simp [FsNode.mkdirp] at h
      rcases hc : lookupEntry es c with _ | child
      · rw [hc] at h
        simp at h
        obtain ⟨ch, hch, hfs'⟩ := h
        subst hfs'
        cases q with
        | nil => exact absurd rfl (hq (c :: p'))
        | cons d q' =>
          by_cases hd : d = c
          · subst hd
            have hq' : ∀ r, q' ++ r ≠ p' := by
              intro r hr
              exact hq r (by simp [hr])
            have hlk := ih (FsNode.dir []) ch q' hch hq'
            cases q' with
            | nil => exact absurd rfl (hq p')
            | cons e r' =>
              simp [FsNode.lookup, lookupEntry_setEntry_self, hc]
              rw [hlk]
              simp [FsNode.lookup, lookupEntry]
          · simp [FsNode.lookup, hc,
              lookupEntry_setEntry_ne es c d ch (fun hh => hd hh.symm)]
      · rw [hc] at h
        simp at h
        obtain ⟨ch, hch, hfs'⟩ := h
        subst hfs'
        cases q with
        | nil => exact absurd rfl (hq (c :: p'))
        | cons d q' =>
          by_cases hd : d = c
          · subst hd
            have hq' : ∀ r, q' ++ r ≠ p' := by
              intro r hr
              exact hq r (by simp [hr])
            simp [FsNode.lookup, lookupEntry_setEntry_self, hc]
            exact ih child ch q' hch hq'
          · simp [FsNode.lookup, hc,
              lookupEntry_setEntry_ne es c d ch (fun hh => hd hh.symm)]

theorem mkdirp_of_dir (p : List String) :
    ∀ (fs : FsNode) (es : List (String × FsNode)),
      fs.lookup p = some (FsNode.dir es) → fs.mkdirp p = some fs := by
  induction p with
  | nil =>
    intro fs es hl
    rw [lookup_nil] at hl
    cases hl
    rfl
  | cons c p' ih =>
    intro fs es hl
    cases fs with
    | file s => simp [FsNode.lookup] at hl
    | symlink s => simp [FsNode.lookup] at hl
    | dir es0 =>
      rw [lookup_dir_cons] at hl
      rcases hc : lookupEntry es0 c with _ | child
      · rw [hc] at hl
        simp at hl
      · rw [hc] at hl
        simp at hl
        have hch := ih child es hl
        simp [FsNode.mkdirp, hc, hch, setEntry_lookup_id es0 c child hc]

/-! Operation-level lemmas. -/

theorem detect_cached (env : Env) (st : St) (b : Bool) (h : st.rsyncAvailable = some b) :
    detectRsync env st = (b, st) := by
  simp [detectRsync, h]

theorem detect_cache_set (env : Env) (st : St) :
    (detectRsync env st).snd.rsyncAvailable = some (detectRsync env st).fst := by
  rcases h : st.rsyncAvailable with _ | b
  · rcases hw : env.whichRsync with msg | code <;> simp [detectRsync, h, hw]
  · simp [detectRsync, h]

theorem copyWithNodeFs_ok (env : Env) (fs : FsNode) (s t : List String) (u : Unit)
    (fs3 : FsNode) (h : copyWithNodeFs env fs s t = (Except.ok u, fs3))
    (hts : ∀ r, t ++ r ≠ s) (hst : ∀ r, s ++ r ≠ t) :
    ∃ node, fs.lookup s = some node ∧ fs3.lookup t = some node ∧ fs3.lookup s = some node := by
  have htn : t ≠ [] := ne_nil_of_strict s t hts
  simp only [copyWithNodeFs] at h
  have hset : (match fs.lookup t with
      | some n => if n.isSymbolicLink || n.isFile then fs.removePath t else fs.removePath t
      | none => fs).lookup s = fs.lookup s := by
    rcases hlt : fs.lookup t with _ | n
    · rfl
    · change (if (n.isSymbolicLink || n.isFile) = true then
          fs.removePath t else fs.removePath t).lookup s = fs.lookup s
      rw [ite_self]
      exact lookup_removePath_other t fs s hts hst
  revert h hset
  generalize (match fs.lookup t with
      | some n => if n.isSymbolicLink || n.isFile then fs.removePath t else fs.removePath t
      | none => fs) = fs1
  intro h hset
  rcases hmk : fs1.mkdirp t.dropLast with _ | fs2
  · rw [hmk] at h
    simp at h
  · rw [hmk] at h
    have h2 : fs2.lookup s = fs.lookup s := by
      rw [← hset]
      exact lookup_mkdirp_other t.dropLast fs1 fs2 s hmk (pathNe_dropLast s t hst htn)
    rcases hcp : env.cpFault with _ | _
    · rw [hcp] at h
      simp only [Bool.false_eq_true, if_false] at h
      rcases hls : fs2.lookup s with _ | node
      · rw [hls] at h
        simp at h
      · rw [hls] at h
        simp only [] at h
        rcases hw : fs2.writeAt t node with _ | fs3'
        · rw [hw] at h
          simp at h
        · rw [hw] at h
          simp at h
          subst h
          refine ⟨node, ?_, ?_, ?_⟩
          · rw [← h2]
            exact hls
          · exact lookup_writeAt_self t fs2 node fs3' hw
          · rw [lookup_writeAt_other t fs2 node fs3' s hw hts hst]
            exact hls
    · rw [hcp] at h
      simp only [if_true] at h
      rcases hp : env.cpPartial with _ | junk <;> rw [hp] at h <;> simp at h

theorem rsyncMirror_some (fs : FsNode) (s t : List String) (fs2 : FsNode)
    (h : rsyncMirror fs s t = some fs2) :
    ∃ node, fs.lookup s = some node ∧ fs.writeAt t node = some fs2 := by
  simp only [rsyncMirror] at h
  rcases hlt : fs.lookup t with _ | n
  · rw [hlt] at h
    simp only [] at h
    rcases hls : fs.lookup s with _ | node
    · rw [hls] at h
      simp at h
    · rw [hls] at h
      exact ⟨node, rfl, h⟩
  · rw [hlt] at h
    cases n with
    | file s0 => simp at h
    | symlink s0 => simp at h
    | dir esT =>
      simp only [] at h
      rcases hls : fs.lookup s with _ | node
      · rw [hls] at h
        simp at h
      · rw [hls] at h
        exact ⟨node, rfl, h⟩

theorem copyWithRsync_ok (env : Env) (fs : FsNode) (s t : List String) (u : Unit)
    (fs2 : FsNode) (h : copyWithRsync env fs s t = (Except.ok u, fs2))
    (hts : ∀ r, t ++ r ≠ s) (hst : ∀ r, s ++ r ≠ t) :
    ∃ node, fs.lookup s = some node ∧ fs2.lookup t = some node ∧ fs2.lookup s = some node := by
  have htn : t ≠ [] := ne_nil_of_strict s t hts
  simp only [copyWithRsync] at h
  rcases hmk : fs.mkdirp t.dropLast with _ | fs1
  · rw [hmk] at h
    simp at h
  · rw [hmk] at h
    simp only [] at h
    have h1 : fs1.lookup s = fs.lookup s :=
      lookup_mkdirp_other t.dropLast fs fs1 s hmk (pathNe_dropLast s t hst htn)
    rcases hrun : env.rsyncRun with msg | cs
    · rw [hrun] at h
      simp at h
    · rw [hrun] at h
      obtain ⟨code, stderrText⟩ := cs
      simp only [] at h
      rcases hb : (code != 0) with _ | _
      · rw [hb] at h
        simp only [Bool.false_eq_true, if_false] at h
        rcases hm : rsyncMirror fs1 s t with _ | fs2'
        · rw [hm] at h
          simp at h
        · rw [hm] at h
          simp at h
          subst h
          obtain ⟨node, hls, hw⟩ := rsyncMirror_some fs1 s t fs2' hm
          refine ⟨node, ?_, lookup_writeAt_self t fs1 node fs2' hw, ?_⟩
          · rw [← h1]
            exact hls
          · rw [lookup_writeAt_other t fs1 node fs2' s hw hts hst]
            exact hls
      · rw [hb] at h
        simp at h

theorem copyWithRsync_err (env : Env) (fs : FsNode) (s t : List String) (e : SyncError)
    (fs' : FsNode) (h : copyWithRsync env fs s t = (Except.error e, fs'))
    (q : List String) (hq : ∀ r, q ++ r ≠ t.dropLast) :
    fs'.lookup q = fs.lookup q := by
  simp only [copyWithRsync] at h
  rcases hmk : fs.mkdirp t.dropLast with _ | fs1
  · rw [hmk] at h
    simp at h
    rw [← h.2]
  · rw [hmk] at h
    simp only [] at h
    have hpre : fs1.lookup q = fs.lookup q :=
      lookup_mkdirp_other t.dropLast fs fs1 q hmk hq
    rcases hrun : env.rsyncRun with msg | cs
    · rw [hrun] at h
      simp at h
      rw [← h.2]
      exact hpre
    · rw [hrun] at h
      obtain ⟨code, stderrText⟩ := cs
      simp only [] at h
      rcases hb : (code != 0) with _ | _
      · rw [hb] at h
        simp only [Bool.false_eq_true, if_false] at h
        rcases hm : rsyncMirror fs1 s t with _ | fs2'
        · rw [hm] at h
          simp at h
          rw [← h.2]
          exact hpre
        · rw [hm] at h
          simp at h
      · rw [hb] at h
        simp at h
        rw [← h.2]
        exact hpre

theorem copyWithNodeFs_nofault (env : Env) (fs : FsNode) (s t : List String) (u : Unit)
    (fs3 : FsNode) (h : copyWithNodeFs env fs s t = (Except.ok u, fs3)) :
    env.cpFault = false := by
  simp only [copyWithNodeFs] at h
  revert h
  generalize (match fs.lookup t with
      | some n => if n.isSymbolicLink || n.isFile then fs.removePath t else fs.removePath t
      | none => fs) = fs1
  intro h
  rcases hcp : env.cpFault with _ | _
  · rfl
  · exfalso
    rcases hmk : fs1.mkdirp t.dropLast with _ | fs2
    · rw [hmk] at h
      simp at h
    · rw [hmk] at h
      simp only [] at h
      rw [hcp] at h
      simp only [if_true] at h
      rcases hp : env.cpPartial with _ | j <;> rw [hp] at h <;> simp at h

theorem copyWithNodeFs_succeeds (env : Env) (fs : FsNode) (s t : List String)
    (node : FsNode) (es : List (String × FsNode))
    (hcp : env.cpFault = false)
    (hts : ∀ r, t ++ r ≠ s) (hst : ∀ r, s ++ r ≠ t)
    (hs : fs.lookup s = some node)
    (hdl : fs.lookup t.dropLast = some (FsNode.dir es)) :
    ∃ fs3, copyWithNodeFs env fs s t = (Except.ok (), fs3) ∧
      fs3.lookup t = some node ∧ fs3.lookup s = some node := by
  have htn : t ≠ [] := ne_nil_of_strict s t hts
  rcases hlt : fs.lookup t with _ | n
  · have hmk : fs.mkdirp t.dropLast = some fs := mkdirp_of_dir t.dropLast fs es hdl
    obtain ⟨fs3, hw⟩ := writeAt_isSome t fs node es htn hdl
    refine ⟨fs3, ?_, lookup_writeAt_self t fs node fs3 hw, ?_⟩
    · simp only [copyWithNodeFs]
      rw [hlt]
      simp only []
      rw [hmk]
      simp only []
      rw [hcp]
      simp only [Bool.false_eq_true, if_false]
      rw [hs]
      simp only []
      rw [hw]
    · rw [lookup_writeAt_other t fs node fs3 s hw hts hst]
      exact hs
  · have hR_s : (fs.removePath t).lookup s = some node := by
      rw [lookup_removePath_other t fs s hts hst]
      exact hs
    obtain ⟨es', hdl'⟩ := removePath_dropLast_dir t fs es htn hdl
    have hmk : (fs.removePath t).mkdirp t.dropLast = some (fs.removePath t) :=
      mkdirp_of_dir t.dropLast (fs.removePath t) es' hdl'
    obtain ⟨fs3, hw⟩ := writeAt_isSome t (fs.removePath t) node es' htn hdl'
    refine ⟨fs3, ?_, lookup_writeAt_self t (fs.removePath t) node fs3 hw, ?_⟩
    · simp only [copyWithNodeFs]
      rw [hlt]
      simp only [ite_self]
      rw [hmk]
      simp only []
      rw [hcp]
      simp only [Bool.false_eq_true, if_false]
      rw [hR_s]
      simp only []
      rw [hw]
    · rw [lookup_writeAt_other t (fs.removePath t) node fs3 s hw hts hst]
      exact hR_s

theorem copyWithRsync_succeeds (env : Env) (fs : FsNode) (s t : List String)
    (node : FsNode) (es esT : List (String × FsNode)) (sErr : String)
    (hrun : env.rsyncRun = Except.ok (0, sErr))
    (hts : ∀ r, t ++ r ≠ s) (hst : ∀ r, s ++ r ≠ t)
    (hs : fs.lookup s = some node)
    (ht : fs.lookup t = some (FsNode.dir esT))
    (hdl : fs.lookup t.dropLast = some (FsNode.dir es)) :
    ∃ fs2, copyWithRsync env fs s t = (Except.ok (), fs2) ∧
      fs2.lookup t = some node ∧ fs2.lookup s = some node := by
  have htn : t ≠ [] := ne_nil_of_strict s t hts
  have hmk : fs.mkdirp t.dropLast = some fs := mkdirp_of_dir t.dropLast fs es hdl
  obtain ⟨fs2, hw⟩ := writeAt_isSome t fs node es htn hdl
  have hm : rsyncMirror fs s t = some fs2 := by
    simp only [rsyncMirror]
    rw [ht]
    simp only []
    rw [hs]
    exact hw
  refine ⟨fs2, ?_, lookup_writeAt_self t fs node fs2 hw, ?_⟩
  · simp only [copyWithRsync]
    rw [hmk]
    simp only []
    rw [hrun]
    simp only [bne_self_eq_false, Bool.false_eq_true, if_false]
    rw [hm]
  · rw [lookup_writeAt_other t fs node fs2 s hw hts hst]
    exact hs

theorem syncDirectory_valid (env : Env) (st : St) (s t : List String) (n : FsNode)
    (hs : st.fs.lookup s = some n) (hd : n.isDir = true)
    (h1 : isStrictDescendant t s = false) (h2 : isStrictDescendant s t = false) :
    syncDirectory env st s t = execStrategies env st s t := by
  simp [syncDirectory, hs, hd, h1, h2]

theorem syncDirectory_ok_valid (env : Env) (st : St) (s t : List String)
    (r : SyncDirectoryResult) (st1 : St)
    (h : syncDirectory env st s t = (Except.ok r, st1)) :
    ∃ n, st.fs.lookup s = some n ∧ n.isDir = true ∧
      isStrictDescendant t s = false ∧ isStrictDescendant s t = false ∧
      execStrategies env st s t = (Except.ok r, st1) := by
  simp only [syncDirectory] at h
  rcases hs : st.fs.lookup s with _ | n
  · rw [hs] at h
    simp at h
  · rw [hs] at h
    simp only [] at h
    rcases hd : n.isDir with _ | _
    · rw [hd] at h
      simp at h
    · rw [hd] at h
      simp only [Bool.not_true, Bool.false_eq_true, if_false] at h
      rcases h1 : isStrictDescendant t s with _ | _
      · rw [h1] at h
        simp only [Bool.false_eq_true, if_false] at h
        rcases h2 : isStrictDescendant s t with _ | _
        · rw [h2] at h
          simp only [Bool.false_eq_true, if_false] at h
          refine ⟨n, rfl, hd, rfl, rfl, h⟩
        · rw [h2] at h
          simp at h
      · rw [h1] at h
        simp at h

theorem applyFallback_of_ok (env : Env) (st : St) (s t : List String) (u : Unit)
    (fs' : FsNode) (hfb : copyWithNodeFs env st.fs s t = (Except.ok u, fs')) :
    applyFallback env st s t =
      (Except.ok { method := Method.fs },
        { st with fs := fs', debugLog := fsDebugMsg s t :: st.debugLog }) := by
  simp only [applyFallback, hfb]

theorem applyFallback_of_err (env : Env) (st : St) (s t : List String) (e : SyncError)
    (fs' : FsNode) (hfb : copyWithNodeFs env st.fs s t = (Except.error e, fs')) :
    applyFallback env st s t =
      (Except.error e,
        { st with fs := if env.cleanupFault then fs' else cleanupTarget fs' t }) := by
  simp only [applyFallback, hfb]

theorem applyFallback_ok (env : Env) (st : St) (s t : List String)
    (r : SyncDirectoryResult) (st1 : St)
    (h : applyFallback env st s t = (Except.ok r, st1)) :
    ∃ u fs', copyWithNodeFs env st.fs s t = (Except.ok u, fs') ∧
      r = { method := Method.fs } ∧
      st1 = { st with fs := fs', debugLog := fsDebugMsg s t :: st.debugLog } := by
  simp only [applyFallback] at h
  rcases hfb : copyWithNodeFs env st.fs s t with ⟨res, fs'⟩
  rw [hfb] at h
  cases res with
  | error e =>
    simp at h
  | ok u =>
    simp at h
    refine ⟨u, fs', rfl, ?_, ?_⟩
    · exact h.1.symm
    · exact h.2.symm

/-- C1: for every `syncDirectory(source, target)` call on non-overlapping
resolved paths that returns successfully, the target's contents afterwards
are exactly the source's contents (mirror, not merge — entries present
only in the prior target are gone), regardless of which strategy (the
external tool or the fallback) executed. -/
theorem syncDirectory_mirrors_source (env : Env) (st : St) (source target : List String)
    (r : SyncDirectoryResult) (st1 : St)
    (hst : pathLeB source target = false) (hts : pathLeB target source = false)
    (h : syncDirectory env st source target = (Except.ok r, st1)) :
    st1.fs.lookup target = st1.fs.lookup source := by
  have hstN := pathLeB_false source target hst
  have htsN := pathLeB_false target source hts
  obtain ⟨n, -, -, -, -, hex⟩ := syncDirectory_ok_valid env st source target r st1 h
  simp only [execStrategies] at hex
  rcases hdet : detectRsync env st with ⟨b, std⟩
  rw [hdet] at hex
  cases b with
  | false =>
    simp only [] at hex
    obtain ⟨u, fs', hfb, -, hst1⟩ := applyFallback_ok env std source target r st1 hex
    obtain ⟨node, -, hT, hS⟩ :=
      copyWithNodeFs_ok env std.fs source target u fs' hfb htsN hstN
    rw [hst1]
    show fs'.lookup target = fs'.lookup source
    rw [hT, hS]
  | true =>
    simp only [] at hex
    rcases hrs : copyWithRsync env std.fs source target with ⟨res, fs'⟩
    rw [hrs] at hex
    cases res with
    | ok u =>
      simp at hex
      obtain ⟨node, -, hT, hS⟩ :=
        copyWithRsync_ok env std.fs source target u fs' hrs htsN hstN
      rw [← hex.2]
      show fs'.lookup target = fs'.lookup source
      rw [hT, hS]
    | error e =>
      simp only [] at hex
      obtain ⟨u, fs'', hfb, -, hst1⟩ := applyFallback_ok env
        { std with fs := fs', errorLog := rsyncErrorMsg e :: std.errorLog }
        source target r st1 hex
      obtain ⟨node, -, hT, hS⟩ :=
        copyWithNodeFs_ok env fs' source target u fs'' hfb htsN hstN
      rw [hst1]
      show fs''.lookup target = fs''.lookup source
      rw [hT, hS]

/-- C1 witness: the spec's concrete scenario — `/tmp/a` holding `f.txt`,
`/tmp/b` holding `g.txt`, tool forced unavailable; after the successful
call `/tmp/b`'s contents equal `/tmp/a`'s. -/
theorem syncDirectory_mirrors_source_witness :
    (syncDirectory envNoRsync stDemo (["tmp", "a"]) (["tmp", "b"])).snd.fs.lookup
        (["tmp", "b"]) =
      (syncDirectory envNoRsync stDemo (["tmp", "a"]) (["tmp", "b"])).snd.fs.lookup
        (["tmp", "a"]) :=
  syncDirectory_mirrors_source envNoRsync stDemo (["tmp", "a"]) (["tmp", "b"])
    { method := Method.fs }
    (syncDirectory envNoRsync stDemo (["tmp", "a"]) (["tmp", "b"])).snd
    (by decide) (by decide) (by rfl)

/-- C2 counterexample: with `source = /missing` absent from the filesystem
and `target = /missing/sub` a strict descendant of it, the call throws
`SourceNotFound`, not `TargetInsideSource` — the source-existence check
runs first, so the claim as stated (quantified over *every* call with a
descendant target) fails. -/
theorem syncDirectory_overlap_missing_source_cex :
    isStrictDescendant (["missing", "sub"]) (["missing"]) = true ∧
    (syncDirectory envNoRsync stDemo (["missing"]) (["missing", "sub"])).fst =
      Except.error SyncError.sourceNotFound ∧
    SyncError.sourceNotFound ≠ SyncError.targetInsideSource := by
  refine ⟨by decide, by rfl, by decide⟩

/-- C2 (amended): provided `source` exists and is a directory (the
source-validation checks precede the overlap checks), a resolved target
that is a strict descendant of the resolved source makes `syncDirectory`
throw `TargetInsideSource`, and symmetrically a source strictly inside the
target throws `SourceInsideTarget`; in both cases the call fails before
any filesystem mutation and the whole state is returned unchanged. -/
theorem syncDirectory_overlap_rejected (env : Env) (st : St) (source target : List String)
    (n : FsNode) (hs : st.fs.lookup source = some n) (hd : n.isDir = true) :
    (isStrictDescendant target source = true →
      syncDirectory env st source target = (Except.error SyncError.targetInsideSource, st)) ∧
    (isStrictDescendant target source = false → isStrictDescendant source target = true →
      syncDirectory env st source target = (Except.error SyncError.sourceInsideTarget, st)) := by
  constructor
  · intro h1
    simp [syncDirectory, hs, hd, h1]
  · intro h1 h2
    simp [syncDirectory, hs, hd, h1, h2]

/-- C2 witness: the spec's scenario `source = /tmp/a`, `target =
/tmp/a/sub` fails with `TargetInsideSource` and leaves the state
untouched; symmetrically `/tmp` inside target `/tmp/a` is also covered at
a concrete input. -/
theorem syncDirectory_overlap_rejected_witness :
    syncDirectory envNoRsync stDemo (["tmp", "a"]) (["tmp", "a", "sub"]) =
      (Except.error SyncError.targetInsideSource, stDemo) ∧
    syncDirectory envNoRsync stDemo (["tmp", "a"]) (["tmp"]) =
      (Except.error SyncError.sourceInsideTarget, stDemo) := by
  constructor
  · exact (syncDirectory_overlap_rejected envNoRsync stDemo (["tmp", "a"])
      (["tmp", "a", "sub"]) (FsNode.dir [("f.txt", FsNode.file ("x"))]) (by rfl)
      (by rfl)).1 (by decide)
  · exact (syncDirectory_overlap_rejected envNoRsync stDemo (["tmp", "a"]) (["tmp"])
      (FsNode.dir [("f.txt", FsNode.file ("x"))])
      (by rfl) (by rfl)).2 (by decide) (by decide)

/-- C6: source validation runs first and in order, for every target
(including overlapping ones, showing it precedes the overlap checks): a
missing source throws `SourceNotFound`, an existing non-directory source
throws `SourceNotDirectory`, and in both cases the state — filesystem,
cache and logs — is returned unchanged (no mutation). -/
theorem syncDirectory_source_validation_first (env : Env) (st : St)
    (source target : List String) :
    (st.fs.lookup source = none →
      syncDirectory env st source target = (Except.error SyncError.sourceNotFound, st)) ∧
    (∀ n, st.fs.lookup source = some n → n.isDir = false →
      syncDirectory env st source target = (Except.error SyncError.sourceNotDirectory, st)) := by
  constructor
  · intro hs
    simp [syncDirectory, hs]
  · intro n hs hd
    simp [syncDirectory, hs, hd]

/-- C6 witness: the spec's scenario `source = /missing` (with an
overlapping target, still reported as `SourceNotFound`), and a file source
reported as `SourceNotDirectory`. -/
theorem syncDirectory_source_validation_first_witness :
    syncDirectory envNoRsync stDemo (["missing"]) (["missing", "sub"]) =
      (Except.error SyncError.sourceNotFound, stDemo) ∧
    syncDirectory envNoRsync stDemo (["tmp", "a", "f.txt"]) (["tmp", "b"]) =
      (Except.error SyncError.sourceNotDirectory, stDemo) := by
  constructor
  · exact (syncDirectory_source_validation_first envNoRsync stDemo (["missing"])
      (["missing", "sub"])).1 (by rfl)
  · exact (syncDirectory_source_validation_first envNoRsync stDemo
      (["tmp", "a", "f.txt"]) (["tmp", "b"])).2 (FsNode.file ("x")) (by rfl) (by rfl)

/-- C10: when the resolved target equals the resolved source, the
strict-descendant check is `false` in both directions (the code's
`startsWith(base + path.sep)` needs a separator plus a non-empty suffix),
so neither overlap error is raised and the call proceeds past validation
into strategy execution. -/
theorem syncDirectory_equal_paths_pass_validation (env : Env) (st : St)
    (p : List String) (n : FsNode) (hs : st.fs.lookup p = some n) (hd : n.isDir = true) :
    isStrictDescendant p p = false ∧
    syncDirectory env st p p = execStrategies env st p p := by
  refine ⟨isStrictDescendant_self p, ?_⟩
  exact syncDirectory_valid env st p p n hs hd (isStrictDescendant_self p)
    (isStrictDescendant_self p)

/-- C10 witness: calling with `source = target = /tmp/a` raises neither
overlap error and reaches strategy execution. -/
theorem syncDirectory_equal_paths_pass_validation_witness :
    isStrictDescendant (["tmp", "a"]) (["tmp", "a"]) = false ∧
    syncDirectory envNoRsync stDemo (["tmp", "a"]) (["tmp", "a"]) =
      execStrategies envNoRsync stDemo (["tmp", "a"]) (["tmp", "a"]) :=
  syncDirectory_equal_paths_pass_validation envNoRsync stDemo (["tmp", "a"])
    (FsNode.dir [("f.txt", FsNode.file ("x"))]) (by rfl) (by rfl)

theorem applyFallback_cache (env : Env) (st : St) (s t : List String) :
    ((applyFallback env st s t).snd).rsyncAvailable = st.rsyncAvailable := by
  simp only [applyFallback]
  rcases hfb : copyWithNodeFs env st.fs s t with ⟨res, fs'⟩
  cases res <;> simp

theorem execStrategies_cache (env : Env) (st : St) (s t : List String) (b : Bool)
    (h : st.rsyncAvailable = some b) :
    ((execStrategies env st s t).snd).rsyncAvailable = some b := by
  simp only [execStrategies]
  rw [detect_cached env st b h]
  cases b with
  | false =>
    simp only []
    rw [applyFallback_cache]
    exact h
  | true =>
    simp only []
    rcases hrs : copyWithRsync env st.fs s t with ⟨res, fs'⟩
    cases res with
    | ok u => simpa using h
    | error e =>
      simp only []
      rw [applyFallback_cache]
      exact h

theorem syncDirectory_cache (env : Env) (st : St) (s t : List String) (b : Bool)
    (h : st.rsyncAvailable = some b) :
    ((syncDirectory env st s t).snd).rsyncAvailable = some b := by
  simp only [syncDirectory]
  rcases hs : st.fs.lookup s with _ | n
  · exact h
  · simp only []
    by_cases hd : n.isDir = true
    · simp only [hd, Bool.not_true, Bool.false_eq_true, if_false]
      by_cases h1 : isStrictDescendant t s = true
      · simp only [h1, if_true]
        exact h
      · simp only [Bool.not_eq_true] at h1
        simp only [h1, Bool.false_eq_true, if_false]
        by_cases h2 : isStrictDescendant s t = true
        · simp only [h2, if_true]
          exact h
        · simp only [Bool.not_eq_true] at h2
          simp only [h2, Bool.false_eq_true, if_false]
          exact execStrategies_cache env st s t b h
    · simp only [Bool.not_eq_true] at hd
      simp only [hd, Bool.not_false, if_true]
      exact h

/-- C7: once the availability cache holds `available`/`unavailable`
(`some b`), every subsequent `detectRsync` returns that value immediately
with the state unchanged, whatever the environment (no re-probing); a full
`syncDirectory` call never moves the cache back to `unknown`; and the
operations that do re-enable probing are exactly the explicit reset and
the override with the `null` sentinel. -/
theorem rsync_cache_invariant (env env' : Env) (st : St) (b : Bool)
    (s t : List String) (h : st.rsyncAvailable = some b) :
    detectRsync env' st = (b, st) ∧
    ((syncDirectory env st s t).snd).rsyncAvailable = some b ∧
    (resetRsyncCache st).rsyncAvailable = none ∧
    (setRsyncAvailable none st).rsyncAvailable = none := by
  refine ⟨detect_cached env' st b h, syncDirectory_cache env st s t b h, rfl, rfl⟩

/-- C7 witness: with the cache forced to `available` over the demo state,
detection answers from the cache (under an environment whose probe would
say otherwise), a full call keeps the cache set, and reset / null-override
clear it. -/
theorem rsync_cache_invariant_witness :
    detectRsync envNoRsync { stDemo with rsyncAvailable := some true } =
      (true, { stDemo with rsyncAvailable := some true }) ∧
    ((syncDirectory envRsyncFails { stDemo with rsyncAvailable := some true }
        (["tmp", "a"]) (["tmp", "b"])).snd).rsyncAvailable = some true ∧
    (resetRsyncCache { stDemo with rsyncAvailable := some true }).rsyncAvailable = none ∧
    (setRsyncAvailable none { stDemo with rsyncAvailable := some true }).rsyncAvailable =
      none :=
  rsync_cache_invariant envRsyncFails envNoRsync { stDemo with rsyncAvailable := some true }
    true (["tmp", "a"]) (["tmp", "b"]) (by rfl)

/-- C8: `detectRsync` never propagates a probe error: for every probe
outcome it returns a boolean, caching `available` exactly when the probe
exits with code 0 and `unavailable` otherwise — including when the probe
itself throws. -/
theorem detectRsync_probe_never_propagates (env : Env) (st : St)
    (h : st.rsyncAvailable = none) :
    detectRsync env st =
      ((match env.whichRsync with
        | Except.ok code => code == 0
        | Except.error _ => false),
       { st with rsyncAvailable := some (match env.whichRsync with
          | Except.ok code => code == 0
          | Except.error _ => false) }) := by
  rcases hw : env.whichRsync with msg | code <;> simp [detectRsync, h, hw]

/-- C8 witness: over the demo state with an unset cache, a throwing probe
yields `false` and caches `unavailable` instead of propagating. -/
theorem detectRsync_probe_never_propagates_witness :
    detectRsync envNoRsync stDemo =
      (false, { stDemo with rsyncAvailable := some false }) :=
  detectRsync_probe_never_propagates envNoRsync stDemo (by rfl)

/-- C5: the returned outcome reports the strategy that completed the copy:
when detection answers `false` (tool unavailable, including a forced
override) the call runs exactly the fallback, so any successful outcome is
`fs`; when detection answers `true` and the rsync copy succeeds the call
returns `rsync` with only the rsync debug message logged and the fallback
never invoked (the final state is exactly the rsync-path state). -/
theorem syncDirectory_outcome_reports_strategy (env : Env) (st st1 st2 : St)
    (source target : List String) (n : FsNode) (r : SyncDirectoryResult) (fs2 : FsNode)
    (hs : st.fs.lookup source = some n) (hd : n.isDir = true)
    (h1 : isStrictDescendant target source = false)
    (h2 : isStrictDescendant source target = false) :
    (detectRsync env st = (false, st1) →
      syncDirectory env st source target = applyFallback env st1 source target) ∧
    (detectRsync env st = (false, st1) →
      syncDirectory env st source target = (Except.ok r, st2) → r.method = Method.fs) ∧
    (detectRsync env st = (true, st1) →
      copyWithRsync env st1.fs source target = (Except.ok (), fs2) →
      syncDirectory env st source target =
        (Except.ok { method := Method.rsync },
          { st1 with
              fs := fs2
              debugLog := rsyncDebugMsg source target :: st1.debugLog })) := by
  refine ⟨?_, ?_, ?_⟩
  · intro hdet
    rw [syncDirectory_valid env st source target n hs hd h1 h2]
    simp only [execStrategies]
    rw [hdet]
  · intro hdet hok
    rw [syncDirectory_valid env st source target n hs hd h1 h2] at hok
    simp only [execStrategies] at hok
    rw [hdet] at hok
    simp only [] at hok
    obtain ⟨u, fs', -, hr, -⟩ := applyFallback_ok env st1 source target r st2 hok
    rw [hr]
  · intro hdet hrs
    rw [syncDirectory_valid env st source target n hs hd h1 h2]
    simp only [execStrategies]
    rw [hdet]
    simp only []
    rw [hrs]

/-- C5 witness: with the tool unavailable the demo call is exactly the
fallback and its successful outcome is `fs`; with the tool available and
succeeding the call returns `rsync` with the rsync-path state. -/
theorem syncDirectory_outcome_reports_strategy_witness :
    syncDirectory envNoRsync stDemo (["tmp", "a"]) (["tmp", "b"]) =
      applyFallback envNoRsync { stDemo with rsyncAvailable := some false }
        (["tmp", "a"]) (["tmp", "b"]) ∧
    SyncDirectoryResult.method { method := Method.fs } = Method.fs ∧
    syncDirectory envRsyncOk stDemo (["tmp", "a"]) (["tmp", "b"]) =
      (Except.ok { method := Method.rsync },
        { stDemo with
            rsyncAvailable := some true
            fs := (copyWithRsync envRsyncOk fsDemo (["tmp", "a"]) (["tmp", "b"])).snd
            debugLog := rsyncDebugMsg (["tmp", "a"]) (["tmp", "b"]) :: stDemo.debugLog }) := by
  refine ⟨?_, ?_, ?_⟩
  · exact (syncDirectory_outcome_reports_strategy envNoRsync stDemo
      { stDemo with rsyncAvailable := some false }
      (syncDirectory envNoRsync stDemo (["tmp", "a"]) (["tmp", "b"])).snd
      (["tmp", "a"]) (["tmp", "b"]) (FsNode.dir [("f.txt", FsNode.file ("x"))])
      { method := Method.fs }
      (copyWithRsync envRsyncOk fsDemo (["tmp", "a"]) (["tmp", "b"])).snd
      (by rfl) (by rfl) (by decide) (by decide)).1 (by rfl)
  · exact (syncDirectory_outcome_reports_strategy envNoRsync stDemo
      { stDemo with rsyncAvailable := some false }
      (syncDirectory envNoRsync stDemo (["tmp", "a"]) (["tmp", "b"])).snd
      (["tmp", "a"]) (["tmp", "b"]) (FsNode.dir [("f.txt", FsNode.file ("x"))])
      { method := Method.fs }
      (copyWithRsync envRsyncOk fsDemo (["tmp", "a"]) (["tmp", "b"])).snd
      (by rfl) (by rfl) (by decide) (by decide)).2.1 (by rfl) (by rfl)
  · exact (syncDirectory_outcome_reports_strategy envRsyncOk stDemo
      { stDemo with rsyncAvailable := some true }
      (syncDirectory envNoRsync stDemo (["tmp", "a"]) (["tmp", "b"])).snd
      (["tmp", "a"]) (["tmp", "b"]) (FsNode.dir [("f.txt", FsNode.file ("x"))])
      { method := Method.fs }
      (copyWithRsync envRsyncOk fsDemo (["tmp", "a"]) (["tmp", "b"])).snd
      (by rfl) (by rfl) (by decide) (by decide)).2.2 (by rfl) (by rfl)

/-- C3: when the tool is detected available but its copy attempt fails,
`syncDirectory` records the failure through the error sink
(`rsyncErrorMsg`) and proceeds to the fallback copier instead of
propagating; when the fallback then succeeds the caller sees a successful
`fs` outcome — never the external-tool failure. -/
theorem syncDirectory_rsync_failure_falls_back (env : Env) (st st1 : St)
    (source target : List String) (n : FsNode) (e : SyncError) (fsR fsB : FsNode) (u : Unit)
    (hs : st.fs.lookup source = some n) (hd : n.isDir = true)
    (h1 : isStrictDescendant target source = false)
    (h2 : isStrictDescendant source target = false)
    (hdet : detectRsync env st = (true, st1))
    (hrs : copyWithRsync env st1.fs source target = (Except.error e, fsR))
    (hfb : copyWithNodeFs env fsR source target = (Except.ok u, fsB)) :
    syncDirectory env st source target =
      (Except.ok { method := Method.fs },
        { st1 with
            fs := fsB
            debugLog := fsDebugMsg source target :: st1.debugLog
            errorLog := rsyncErrorMsg e :: st1.errorLog }) := by
  rw [syncDirectory_valid env st source target n hs hd h1 h2]
  simp only [execStrategies]
  rw [hdet]
  simp only []
  rw [hrs]
  simp only []
  rw [applyFallback_of_ok env
    { st1 with fs := fsR, errorLog := rsyncErrorMsg e :: st1.errorLog }
    source target u fsB hfb]

/-- C3 witness: rsync available but exiting nonzero over the demo state —
the call succeeds through the fallback with the tool failure logged to the
error sink. -/
theorem syncDirectory_rsync_failure_falls_back_witness :
    syncDirectory envRsyncFails stDemo (["tmp", "a"]) (["tmp", "b"]) =
      (Except.ok { method := Method.fs },
        { stDemo with
            rsyncAvailable := some true
            fs := (copyWithNodeFs envRsyncFails
              (copyWithRsync envRsyncFails fsDemo (["tmp", "a"]) (["tmp", "b"])).snd
              (["tmp", "a"]) (["tmp", "b"])).snd
            debugLog := fsDebugMsg (["tmp", "a"]) (["tmp", "b"]) :: stDemo.debugLog
            errorLog := rsyncErrorMsg (SyncError.rsyncError
              (String.append ("rsync failed: ") ("io error"))) :: stDemo.errorLog }) :=
  syncDirectory_rsync_failure_falls_back envRsyncFails stDemo
    { stDemo with rsyncAvailable := some true } (["tmp", "a"]) (["tmp", "b"])
    (FsNode.dir [("f.txt", FsNode.file ("x"))])
    (SyncError.rsyncError (String.append ("rsync failed: ") ("io error")))
    (copyWithRsync envRsyncFails fsDemo (["tmp", "a"]) (["tmp", "b"])).snd
    (copyWithNodeFs envRsyncFails
      (copyWithRsync envRsyncFails fsDemo (["tmp", "a"]) (["tmp", "b"])).snd
      (["tmp", "a"]) (["tmp", "b"])).snd ()
    (by rfl) (by rfl) (by decide) (by decide) (by rfl) (by rfl) (by rfl)

/-- C4: when the fallback copy fails, `syncDirectory` attempts best-effort
removal of the partially-written target (the `cleanupTarget` block:
unlink for a file or symbolic link, recursive removal for a directory),
swallows any error raised by that cleanup (`env.cleanupFault` injects
one, in which case the filesystem is left as the failure left it), and
re-raises the original fallback error `e` to the caller — the cleanup
error never replaces it and no further fallback is attempted.  Both routes
into the fallback (tool unavailable, and tool failed) are covered. -/
theorem syncDirectory_fallback_failure_cleanup (env : Env) (st st1 : St)
    (source target : List String) (n : FsNode) (e er : SyncError) (fsA fsR : FsNode)
    (hs : st.fs.lookup source = some n) (hd : n.isDir = true)
    (h1 : isStrictDescendant target source = false)
    (h2 : isStrictDescendant source target = false) :
    (detectRsync env st = (false, st1) →
      copyWithNodeFs env st1.fs source target = (Except.error e, fsA) →
      syncDirectory env st source target =
        (Except.error e,
          { st1 with fs := if env.cleanupFault then fsA else cleanupTarget fsA target })) ∧
    (detectRsync env st = (true, st1) →
      copyWithRsync env st1.fs source target = (Except.error er, fsR) →
      copyWithNodeFs env fsR source target = (Except.error e, fsA) →
      syncDirectory env st source target =
        (Except.error e,
          { st1 with
              fs := if env.cleanupFault then fsA else cleanupTarget fsA target
              errorLog := rsyncErrorMsg er :: st1.errorLog })) := by
  constructor
  · intro hdet hfb
    rw [syncDirectory_valid env st source target n hs hd h1 h2]
    simp only [execStrategies]
    rw [hdet]
    simp only []
    rw [applyFallback_of_err env st1 source target e fsA hfb]
  · intro hdet hrs hfb
    rw [syncDirectory_valid env st source target n hs hd h1 h2]
    simp only [execStrategies]
    rw [hdet]
    simp only []
    rw [hrs]
    simp only []
    rw [applyFallback_of_err env
      { st1 with fs := fsR, errorLog := rsyncErrorMsg er :: st1.errorLog }
      source target e fsA hfb]

/-- C4 witness: tool unavailable, `cpSync` fails after writing a partial
file at `/tmp/b`; the call re-raises the `cpSync` error and the cleanup
really leaves no entry at the target (checked by evaluation). -/
theorem syncDirectory_fallback_failure_cleanup_witness :
    (syncDirectory envCpFault stDemo (["tmp", "a"]) (["tmp", "b"]) =
      (Except.error SyncError.cpError,
        { stDemo with
            rsyncAvailable := some false
            fs := cleanupTarget
              (copyWithNodeFs envCpFault fsDemo (["tmp", "a"]) (["tmp", "b"])).snd
              (["tmp", "b"]) })) ∧
    ((syncDirectory envCpFault stDemo (["tmp", "a"]) (["tmp", "b"])).snd.fs.lookup
      (["tmp", "b"]) = none) := by
  constructor
  · exact (syncDirectory_fallback_failure_cleanup envCpFault stDemo
      { stDemo with rsyncAvailable := some false } (["tmp", "a"]) (["tmp", "b"])
      (FsNode.dir [("f.txt", FsNode.file ("x"))]) SyncError.cpError SyncError.cpError
      (copyWithNodeFs envCpFault fsDemo (["tmp", "a"]) (["tmp", "b"])).snd fsDemo
      (by rfl) (by rfl) (by decide) (by decide)).1 (by rfl) (by rfl)
  · rfl

theorem detect_fs (env : Env) (st : St) : (detectRsync env st).snd.fs = st.fs := by
  rcases h : st.rsyncAvailable with _ | b
  · rcases hw : env.whichRsync with m | c <;> simp [detectRsync, h, hw]
  · simp [detectRsync, h]

theorem copyWithRsync_ok_run (env : Env) (fs : FsNode) (s t : List String) (u : Unit)
    (fs2 : FsNode) (h : copyWithRsync env fs s t = (Except.ok u, fs2)) :
    ∃ sErr, env.rsyncRun = Except.ok (0, sErr) := by
  simp only [copyWithRsync] at h
  rcases hmk : fs.mkdirp t.dropLast with _ | fs1
  · rw [hmk] at h
    simp at h
  · rw [hmk] at h
    simp only [] at h
    rcases hrun : env.rsyncRun with msg | cs
    · rw [hrun] at h
      simp at h
    · obtain ⟨code, sErr⟩ := cs
      rw [hrun] at h
      simp only [] at h
      rcases hb : (code != 0) with _ | _
      · have hc0 : code = 0 := by simpa using hb
        subst hc0
        exact ⟨sErr, rfl⟩
      · rw [hb] at h
        simp at h

theorem copyWithRsync_fails (env : Env) (fs : FsNode) (s t : List String)
    (es : List (String × FsNode))
    (hdl : fs.lookup t.dropLast = some (FsNode.dir es))
    (hrun : ∀ sErr, env.rsyncRun ≠ Except.ok (0, sErr)) :
    ∃ e, copyWithRsync env fs s t = (Except.error e, fs) := by
  have hmk : fs.mkdirp t.dropLast = some fs := mkdirp_of_dir t.dropLast fs es hdl
  rcases hr : env.rsyncRun with msg | cs
  · refine ⟨SyncError.rsyncError msg, ?_⟩
    simp only [copyWithRsync]
    rw [hmk]
    simp only []
    rw [hr]
  · obtain ⟨code, sErr⟩ := cs
    have hcode : code ≠ 0 := by
      intro h0
      subst h0
      exact hrun sErr hr
    have hb : (code != 0) = true := by simpa using hcode
    refine ⟨SyncError.rsyncError (String.append ("rsync failed: ") sErr), ?_⟩
    simp only [copyWithRsync]
    rw [hmk]
    simp only []
    rw [hr]
    simp only [hb, if_true]

theorem syncDirectory_ok_post (env : Env) (st : St) (s t : List String)
    (r : SyncDirectoryResult) (st1 : St)
    (hst : pathLeB s t = false) (hts : pathLeB t s = false)
    (h : syncDirectory env st s t = (Except.ok r, st1)) :
    ∃ es, st1.fs.lookup s = some (FsNode.dir es) ∧
      st1.fs.lookup t = some (FsNode.dir es) ∧
      st1.rsyncAvailable = some (detectRsync env st).fst ∧
      (((detectRsync env st).fst = true ∧ ∃ sErr, env.rsyncRun = Except.ok (0, sErr)) ∨
        env.cpFault = false) := by
  have hstN := pathLeB_false s t hst
  have htsN := pathLeB_false t s hts
  have htn : t ≠ [] := ne_nil_of_strict s t htsN
  obtain ⟨n, hsrc, hdir, -, -, hex⟩ := syncDirectory_ok_valid env st s t r st1 h
  cases n with
  | file c => simp [FsNode.isDir] at hdir
  | symlink c => simp [FsNode.isDir] at hdir
  | dir es0 =>
    simp only [execStrategies] at hex
    rcases hdet : detectRsync env st with ⟨b, std⟩
    have hstdfs : std.fs = st.fs := by
      have := detect_fs env st
      rw [hdet] at this
      exact this
    have hcch : std.rsyncAvailable = some b := by
      have := detect_cache_set env st
      rw [hdet] at this
      exact this
    have hfst : (detectRsync env st).fst = b := by rw [hdet]
    rw [hdet] at hex
    cases b with
    | false =>
      simp only [] at hex
      obtain ⟨u, fs', hfb, -, hst1⟩ := applyFallback_ok env std s t r st1 hex
      obtain ⟨node, hSpre, hT, hS⟩ := copyWithNodeFs_ok env std.fs s t u fs' hfb htsN hstN
      rw [hstdfs, hsrc] at hSpre
      cases hSpre
      refine ⟨es0, ?_, ?_, ?_, Or.inr (copyWithNodeFs_nofault env std.fs s t u fs' hfb)⟩
      · rw [hst1]
        exact hS
      · rw [hst1]
        exact hT
      · rw [hst1]
        exact hcch
    | true =>
      simp only [] at hex
      rcases hrs : copyWithRsync env std.fs s t with ⟨res, fs'⟩
      rw [hrs] at hex
      cases res with
      | ok u =>
        simp at hex
        obtain ⟨node, hSpre, hT, hS⟩ := copyWithRsync_ok env std.fs s t u fs' hrs htsN hstN
        rw [hstdfs, hsrc] at hSpre
        cases hSpre
        obtain ⟨sErr, hrun⟩ := copyWithRsync_ok_run env std.fs s t u fs' hrs
        refine ⟨es0, ?_, ?_, ?_, Or.inl ⟨rfl, sErr, hrun⟩⟩
        · rw [← hex.2]
          exact hS
        · rw [← hex.2]
          exact hT
        · rw [← hex.2]
          exact hcch
      | error e =>
        simp only [] at hex
        obtain ⟨u, fs'', hfb, -, hst1⟩ := applyFallback_ok env
          { std with fs := fs', errorLog := rsyncErrorMsg e :: std.errorLog } s t r st1 hex
        obtain ⟨node, hSpre, hT, hS⟩ := copyWithNodeFs_ok env fs' s t u fs'' hfb htsN hstN
        have hpre : fs'.lookup s = std.fs.lookup s :=
          copyWithRsync_err env std.fs s t e fs' hrs s (pathNe_dropLast s t hstN htn)
        rw [hpre, hstdfs, hsrc] at hSpre
        cases hSpre
        refine ⟨es0, ?_, ?_, ?_, Or.inr (copyWithNodeFs_nofault env fs' s t u fs'' hfb)⟩
        · rw [hst1]
          exact hS
        · rw [hst1]
          exact hT
        · rw [hst1]
          exact hcch

/-- C9: `syncDirectory` is idempotent with respect to target contents — a
second call over the state a successful call left (source unchanged, same
environment) succeeds again and leaves the same target contents as the
single call. -/
theorem syncDirectory_idempotent (env : Env) (st : St) (source target : List String)
    (r : SyncDirectoryResult) (st1 : St)
    (hst : pathLeB source target = false) (hts : pathLeB target source = false)
    (h : syncDirectory env st source target = (Except.ok r, st1)) :
    ∃ r2 st2, syncDirectory env st1 source target = (Except.ok r2, st2) ∧
      st2.fs.lookup target = st1.fs.lookup target := by
  have hstN := pathLeB_false source target hst
  have htsN := pathLeB_false target source hts
  have htn : target ≠ [] := ne_nil_of_strict source target htsN
  obtain ⟨n, -, -, h1, h2, -⟩ := syncDirectory_ok_valid env st source target r st1 h
  obtain ⟨es, hS1, hT1, hCache, hBr⟩ :=
    syncDirectory_ok_post env st source target r st1 hst hts h
  obtain ⟨es2, hdl⟩ := lookup_dropLast_dir target st1.fs (FsNode.dir es) htn hT1
  have hvalid := syncDirectory_valid env st1 source target (FsNode.dir es) hS1 rfl h1 h2
  rcases hb : (detectRsync env st).fst with _ | _
  · have hcp : env.cpFault = false := by
      rcases hBr with ⟨hbt, -⟩ | hcp
      · rw [hb] at hbt
        simp at hbt
      · exact hcp
    rw [hb] at hCache
    obtain ⟨fs3, hok, hT3, -⟩ := copyWithNodeFs_succeeds env st1.fs source target
      (FsNode.dir es) es2 hcp htsN hstN hS1 hdl
    refine ⟨{ method := Method.fs },
      { st1 with fs := fs3, debugLog := fsDebugMsg source target :: st1.debugLog }, ?_, ?_⟩
    · rw [hvalid]
      simp only [execStrategies]
      rw [detect_cached env st1 false hCache]
      simp only []
      rw [applyFallback_of_ok env st1 source target () fs3 hok]
    · show fs3.lookup target = st1.fs.lookup target
      rw [hT3, hT1]
  · rw [hb] at hCache
    rcases hrE : env.rsyncRun with msg | cs
    · have hcp : env.cpFault = false := by
        rcases hBr with ⟨-, sErr, hok0⟩ | hcp
        · rw [hrE] at hok0
          cases hok0
        · exact hcp
      obtain ⟨er, hrsE⟩ := copyWithRsync_fails env st1.fs source target es2 hdl
        (by
          intro sErr hEq
          rw [hrE] at hEq
          cases hEq)
      obtain ⟨fs3, hok, hT3, -⟩ := copyWithNodeFs_succeeds env st1.fs source target
        (FsNode.dir es) es2 hcp htsN hstN hS1 hdl
      refine ⟨{ method := Method.fs },
        { st1 with
            fs := fs3
            debugLog := fsDebugMsg source target :: st1.debugLog
            errorLog := rsyncErrorMsg er :: st1.errorLog }, ?_, ?_⟩
      · rw [hvalid]
        simp only [execStrategies]
        rw [detect_cached env st1 true hCache]
        simp only []
        rw [hrsE]
        simp only []
        rw [applyFallback_of_ok env
          { st1 with fs := st1.fs, errorLog := rsyncErrorMsg er :: st1.errorLog }
          source target () fs3 hok]
      · show fs3.lookup target = st1.fs.lookup target
        rw [hT3, hT1]
    · obtain ⟨code, sErr⟩ := cs
      by_cases hc0 : code = 0
      · subst hc0
        obtain ⟨fs2, hok2, hT2, -⟩ := copyWithRsync_succeeds env st1.fs source target
          (FsNode.dir es) es2 es sErr hrE htsN hstN hS1 hT1 hdl
        refine ⟨{ method := Method.rsync },
          { st1 with fs := fs2, debugLog := rsyncDebugMsg source target :: st1.debugLog },
          ?_, ?_⟩
        · rw [hvalid]
          simp only [execStrategies]
          rw [detect_cached env st1 true hCache]
          simp only []
          rw [hok2]
        · show fs2.lookup target = st1.fs.lookup target
          rw [hT2, hT1]
      · have hcp : env.cpFault = false := by
          rcases hBr with ⟨-, sErr', hok0⟩ | hcp
          · rw [hrE] at hok0
            simp at hok0
            exact absurd hok0.1 hc0
          · exact hcp
        obtain ⟨er, hrsE⟩ := copyWithRsync_fails env st1.fs source target es2 hdl
          (by
            intro sErr' hEq
            rw [hrE] at hEq
            simp at hEq
            exact absurd hEq.1 hc0)
        obtain ⟨fs3, hok, hT3, -⟩ := copyWithNodeFs_succeeds env st1.fs source target
          (FsNode.dir es) es2 hcp htsN hstN hS1 hdl
        refine ⟨{ method := Method.fs },
          { st1 with
              fs := fs3
              debugLog := fsDebugMsg source target :: st1.debugLog
              errorLog := rsyncErrorMsg er :: st1.errorLog }, ?_, ?_⟩
        · rw [hvalid]
          simp only [execStrategies]
          rw [detect_cached env st1 true hCache]
          simp only []
          rw [hrsE]
          simp only []
          rw [applyFallback_of_ok env
            { st1 with fs := st1.fs, errorLog := rsyncErrorMsg er :: st1.errorLog }
            source target () fs3 hok]
        · show fs3.lookup target = st1.fs.lookup target
          rw [hT3, hT1]

/-- C9 witness: running the demo sync twice (tool unavailable) leaves the
same `/tmp/b` contents as running it once. -/
theorem syncDirectory_idempotent_witness :
    (syncDirectory envNoRsync
        (syncDirectory envNoRsync stDemo (["tmp", "a"]) (["tmp", "b"])).snd
        (["tmp", "a"]) (["tmp", "b"])).snd.fs.lookup (["tmp", "b"]) =
      (syncDirectory envNoRsync stDemo (["tmp", "a"]) (["tmp", "b"])).snd.fs.lookup
        (["tmp", "b"]) := by
  obtain ⟨r2, st2, heq, hlook⟩ := syncDirectory_idempotent envNoRsync stDemo
    (["tmp", "a"]) (["tmp", "b"]) { method := Method.fs }
    (syncDirectory envNoRsync stDemo (["tmp", "a"]) (["tmp", "b"])).snd
    (by decide) (by decide) (by rfl)
  rw [heq]
  exact hlook
